import Mathlib

/-!
Shallow embedding of the core logic of `batch_kb_to_docx.py`: SSO-aware
navigation checks, content-readiness polling, main-content selection,
image resolution (data/blob/http), and the HTML-to-DOCX document builder.
Python strings are modelled as `List Char`; machine-level byte strings as
`List Nat` with every byte `< 256`; fallible code returns `Option` or
`Except`.
-/

set_option maxRecDepth 8000

namespace KbDocx

/-- Python strings, modelled as lists of characters. -/
abbrev Str := List Char

/-- Model of Python's `str.isspace` character class restricted to ASCII
(the `\s` regex class: space, tab, newline, carriage return, vertical
tab, form feed). -/
def isSpace (c : Char) : Bool :=
  c == ' ' || c == '\t' || c == '\n' || c == '\r' || c == '\x0b' || c == '\x0c'

/-- Model of Python's `str.lower` (ASCII case folding). -/
def pyLower (s : Str) : Str := s.map Char.toLower

/-- Model of Python's `str.strip()`: drop leading and trailing whitespace. -/
def pyStrip (s : Str) : Str :=
  ((s.dropWhile isSpace).reverse.dropWhile isSpace).reverse

/-- Model of `re.sub(r"\s+", " ", s)`: collapse each maximal run of
whitespace characters to a single space. -/
def subWs : Str → Str
  | [] => []
  | [c] => if isSpace c then [' '] else [c]
  | c :: d :: r =>
    if isSpace c then
      (if isSpace d then subWs (d :: r) else ' ' :: subWs (d :: r))
    else c :: subWs (d :: r)

/-- Model of `re.sub(r"\s+", " ", s).strip()`, the whitespace
normalization applied by the document builder's text emitters. -/
def pyNormalize (s : Str) : Str := pyStrip (subWs s)

/-- Accumulator-based whitespace splitter (model of `str.split()` used for
HTML `class` attribute tokenization). -/
def splitWsAux : Str → Str → List Str
  | acc, [] => if acc.isEmpty then [] else [acc.reverse]
  | acc, c :: r =>
    if isSpace c then
      (if acc.isEmpty then splitWsAux [] r else acc.reverse :: splitWsAux [] r)
    else splitWsAux (c :: acc) r

/-- Split a string on whitespace runs into nonempty tokens. -/
def splitWs (s : Str) : List Str := splitWsAux [] s

/-- `sep.join(parts)`. -/
def joinSep (sep : Str) : List Str → Str
  | [] => []
  | [s] => s
  | s :: t :: r => s ++ sep ++ joinSep sep (t :: r)

/-- If `pat` is a leading piece of `s`, return the remainder of `s`. -/
def dropCount : Str → Str → Option Str
  | [], s => some s
  | _ :: _, [] => none
  | p :: pr, c :: cr => if c == p then dropCount pr cr else none

/-- Model of Python's `pat in s` substring test. -/
def strContains (pat : Str) : Str → Bool
  | [] => (dropCount pat ([] : Str)).isSome
  | c :: r => (dropCount pat (c :: r)).isSome || strContains pat r

/-- Model of `s.split(sep, 1)` for a one-character separator: split at the
first occurrence, `none` when the separator does not occur (in the source
this case makes tuple unpacking raise `ValueError`). -/
def splitFirst (c : Char) : Str → Option (Str × Str)
  | [] => none
  | d :: r =>
    if d == c then some ([], r)
    else
      match splitFirst c r with
      | some (a, b) => some (d :: a, b)
      | none => none

/-- Hexadecimal digit value. -/
def hexVal (c : Char) : Option Nat :=
  if '0' ≤ c ∧ c ≤ '9' then some (c.toNat - 48)
  else if 'a' ≤ c ∧ c ≤ 'f' then some (c.toNat - 97 + 10)
  else if 'A' ≤ c ∧ c ≤ 'F' then some (c.toNat - 65 + 10)
  else none

/-- Model of `urllib.parse.unquote` for single-byte percent escapes: each
`%XY` with hexadecimal digits becomes the character of code `0xXY`;
malformed escapes are left as-is (multi-byte UTF-8 sequences are outside
the modelled fragment). -/
def unquote : Str → Str
  | '%' :: a :: b :: rest =>
    (match hexVal a, hexVal b with
     | some x, some y => Char.ofNat (16 * x + y) :: unquote rest
     | _, _ => '%' :: unquote (a :: b :: rest))
  | c :: rest => c :: unquote rest
  | [] => []

/-- The literal `/target/` looked for by `re.search(r"/target/([^?]+)", url)`. -/
def targetLit : Str := "/target/".toList

/-- Model of `re.search(r"/target/([^?]+)", url)`: the capture group of the
leftmost match — the maximal nonempty run of non-`?` characters following
an occurrence of `/target/`. -/
def findTarget : Str → Option Str
  | [] => none
  | c :: r =>
    if targetLit.isPrefixOf (c :: r) then
      (let grp := (List.drop 8 (c :: r)).takeWhile (fun d => d != '?')
       if grp.isEmpty then findTarget r else some grp)
    else findTarget r

/-- Model of `re.match(r"^(https?://[^/]+)", url)`: the scheme plus host
piece of an absolute http/https URL. -/
def hostMatch (url : Str) : Option Str :=
  if ("https://".toList).isPrefixOf url then
    (let h := (url.drop 8).takeWhile (fun d => d != '/')
     if h.isEmpty then none else some ("https://".toList ++ h))
  else if ("http://".toList).isPrefixOf url then
    (let h := (url.drop 7).takeWhile (fun d => d != '/')
     if h.isEmpty then none else some ("http://".toList ++ h))
  else none

/-- `decoded.startswith("http://") or decoded.startswith("https://")`. -/
def isAbsHttp (s : Str) : Bool :=
  ("http://".toList).isPrefixOf s || ("https://".toList).isPrefixOf s

/-- Model of `decode_target_to_direct_url`: extract the percent-encoded
path after `/target/`, percent-decode it, and either return it directly
(when already absolute) or prefix it with the scheme+host of the original
URL; the URL is returned unchanged when no wrapper or no host is found. -/
def decode_target_to_direct_url (url : Str) : Str :=
  match findTarget url with
  | none => url
  | some enc =>
    let decoded := unquote enc
    if isAbsHttp decoded then decoded
    else
      match hostMatch url with
      | none => url
      | some host => host ++ '/' :: decoded.dropWhile (fun d => d == '/')

/-- Model of `looks_like_login`: the lowercased URL contains one of the
known identity-provider substrings. -/
def looks_like_login (url : Str) : Bool :=
  let u := pyLower url
  (["login", "sso", "saml", "auth", "okta", "adfs", "signin",
    "microsoftonline.com"].map String.toList).any (fun s => strContains s u)

/-- Loop body of `wait_for_text_length`: given the lengths that successive
polls would observe before the deadline, return the number of polls
actually made and the returned (last observed) length, starting from a
carried `last_len`. -/
def wait_poll_aux (minChars : Nat) : List Nat → Nat → Nat × Nat
  | [], last => (0, last)
  | l :: rest, last =>
    if minChars ≤ l then (1, l)
    else
      (let r := wait_poll_aux minChars rest l
       (r.1 + 1, r.2))

/-- Model of `wait_for_text_length`: `obs` lists the text lengths the
polling loop would observe at its successive iterations within the
timeout window; `last_len` starts at 0. Returns (polls made, returned
length). -/
def wait_for_text_length (minChars : Nat) (obs : List Nat) : Nat × Nat :=
  wait_poll_aux minChars obs 0

/-- The standard base64 alphabet, in value order. -/
def b64chars : Str :=
  "ABCDEFGHIJKLMNOPQRSTUVWXYZabcdefghijklmnopqrstuvwxyz0123456789+/".toList

/-- The alphabet character for a 6-bit value. -/
def b64char (v : Nat) : Char := b64chars.getD v 'A'

/-- The 6-bit value of an alphabet character. -/
def b64val (c : Char) : Option Nat := b64chars.findIdx? (fun d => d == c)

/-- Model of `base64.b64encode` over byte lists. -/
def b64encode : List Nat → Str
  | b0 :: b1 :: b2 :: r =>
    b64char (b0 / 4) :: b64char (b0 % 4 * 16 + b1 / 16) ::
      b64char (b1 % 16 * 4 + b2 / 64) :: b64char (b2 % 64) :: b64encode r
  | [b0, b1] =>
    [b64char (b0 / 4), b64char (b0 % 4 * 16 + b1 / 16), b64char (b1 % 16 * 4), '=']
  | [b0] => [b64char (b0 / 4), b64char (b0 % 4 * 16), '=', '=']
  | [] => []

/-- Decode a cleaned base64 string four characters at a time; `none`
models `binascii.Error` (bad length or misplaced padding). -/
def decB : Str → Option (List Nat)
  | [] => some []
  | c0 :: c1 :: c2 :: c3 :: r =>
    (match b64val c0, b64val c1 with
     | some v0, some v1 =>
       if c3 == '=' then
         (if !r.isEmpty then none
          else if c2 == '=' then some [v0 * 4 + v1 / 16]
          else
            match b64val c2 with
            | some v2 => some [v0 * 4 + v1 / 16, v1 % 16 * 16 + v2 / 4]
            | none => none)
       else
         (match b64val c2, b64val c3, decB r with
          | some v2, some v3, some tl =>
            some ((v0 * 4 + v1 / 16) :: (v1 % 16 * 16 + v2 / 4) :: (v2 % 4 * 64 + v3) :: tl)
          | _, _, _ => none)
     | _, _ => none)
  | _ => none

/-- Model of `base64.b64decode` (default `validate=False`): characters
outside the alphabet and `=` are discarded, then the remainder is decoded;
`none` models the raised `binascii.Error`. -/
def b64decode (s : Str) : Option (List Nat) :=
  decB (s.filter (fun c => (b64val c).isSome || c == '='))

/-- The literal `data:image/` tested by `is_data_image`. -/
def dataImageLit : Str := ['d', 'a', 't', 'a', ':', 'i', 'm', 'a', 'g', 'e', '/']

/-- The literal `;base64` required after the media subtype. -/
def base64Lit : Str := [';', 'b', 'a', 's', 'e', '6', '4']

/-- Model of `src.startswith("data:image/")`. -/
def is_data_image (src : Str) : Bool := dataImageLit.isPrefixOf src

/-- Case-insensitive literal match: if `lower(s)` starts with the
(lowercase) literal `lit`, return the remainder of `s`. -/
def lowerPrefixMatch : Str → Str → Option Str
  | [], s => some s
  | _ :: _, [] => none
  | l :: lr, c :: cr => if c.toLower == l then lowerPrefixMatch lr cr else none

/-- Model of `re.search(r"data:image/([^;]+);base64", header, re.IGNORECASE)`:
the captured media subtype of the leftmost match. -/
def findSubtype : Str → Option Str
  | [] => none
  | c :: r =>
    match lowerPrefixMatch dataImageLit (c :: r) with
    | some rest =>
      (let sub := rest.takeWhile (fun d => d != ';')
       if sub.isEmpty then findSubtype r
       else
         match lowerPrefixMatch base64Lit (rest.dropWhile (fun d => d != ';')) with
         | some _ => some sub
         | none => findSubtype r)
    | none => findSubtype r

/-- Fuel-driven core of Python's `str.replace`, scanning left to right and
skipping over each non-overlapping occurrence of `pat`. -/
def pyReplaceFuel (pat rep : Str) : Nat → Str → Str
  | _, [] => []
  | 0, s => s
  | fuel + 1, c :: r =>
    if pat.isEmpty then c :: pyReplaceFuel pat rep fuel r
    else
      match dropCount pat (c :: r) with
      | some rest => rep ++ pyReplaceFuel pat rep fuel rest
      | none => c :: pyReplaceFuel pat rep fuel r

/-- Model of `s.replace(pat, rep)` for nonempty `pat`. -/
def pyReplace (pat rep s : Str) : Str := pyReplaceFuel pat rep s.length s

/-- Model of `decode_data_image`: split the `data:` URI at its first comma
(`none` models the `ValueError` from tuple unpacking when there is no
comma), derive the format hint from the declared media subtype (lowercased,
with `jpeg` replaced by `jpg`, defaulting to `png`), and base64-decode the
payload (`none` models the raised `binascii.Error`). -/
def decode_data_image (src : Str) : Option (List Nat × Str) :=
  match splitFirst ',' src with
  | none => none
  | some (header, b64) =>
    let ext :=
      match findSubtype header with
      | some sub => pyReplace ("jpeg".toList) ("jpg".toList) (pyLower sub)
      | none => "png".toList
    match b64decode b64 with
    | some bs => some (bs, ext)
    | none => none

/-- Model of `guess_ext_from_content_type`. -/
def guess_ext_from_content_type : Option Str → Str
  | none => "png".toList
  | some ct =>
    let c := pyLower ct
    if strContains ("jpeg".toList) c then "jpg".toList
    else if strContains ("png".toList) c then "png".toList
    else if strContains ("gif".toList) c then "gif".toList
    else if strContains ("webp".toList) c then "webp".toList
    else if strContains ("bmp".toList) c then "bmp".toList
    else if strContains ("tiff".toList) c then "tif".toList
    else "png".toList

/-- Model of `urllib.parse.urlparse(url).scheme.lower()`: the lowercased
alphabetic-led run of scheme characters before the first `:`, or empty. -/
def schemeOf (url : Str) : Str :=
  match splitFirst ':' url with
  | none => []
  | some (sch, _) =>
    if !sch.isEmpty &&
        sch.all (fun c => c.isAlpha || c.isDigit || c == '+' || c == '-' || c == '.') &&
        (match sch with | c :: _ => c.isAlpha | [] => false) then
      pyLower sch
    else []

/-- Model of `urllib.parse.urljoin(base, src)` restricted to the cases the
image fetcher exercises: absolute `src` (has a scheme), scheme-relative
`//…`, host-relative `/…`, empty `src`, and plain relative paths resolved
against the base's directory. -/
def urljoin (base src : Str) : Str :=
  if src.isEmpty then base
  else if !(schemeOf src).isEmpty then src
  else if ("//".toList).isPrefixOf src then schemeOf base ++ ':' :: src
  else if ("/".toList).isPrefixOf src then (hostMatch base).getD [] ++ src
  else (base.reverse.dropWhile (fun c => c != '/')).reverse ++ src

/-- The external collaborators of `fetch_image_bytes`, as oracles:
`blobFetch` models the in-page `fetch` of a `blob:` URL (`none` is any
exception), `httpFetch` models `context.request.get` (`some (body, ct)` is
a successful response with its content type; `none` is a non-ok status or
any transport exception), and `picture_ok` models whether
`doc.add_picture` accepts the bytes/format. -/
structure FetchEnv where
  blobFetch : Str → Option (List Nat)
  httpFetch : Str → Option (List Nat × Option Str)
  picture_ok : List Nat → Str → Bool

/-- Model of `fetch_image_bytes`. `Except.error ()` models an exception
escaping the function (only possible on the `data:` path, whose decode is
not wrapped in try/except); `.ok none` models the soft `(None, None)`
failure; `.ok (some (bytes, ext))` is success. -/
def fetch_image_bytes (env : FetchEnv) (src base_url : Str) :
    Except Unit (Option (List Nat × Str)) :=
  if src.isEmpty then .ok none
  else
    let s := pyStrip src
    if is_data_image s then
      match decode_data_image s with
      | some r => .ok (some r)
      | none => .error ()
    else if ("blob:".toList).isPrefixOf s then
      match env.blobFetch s with
      | some bts => .ok (some (bts, "png".toList))
      | none => .ok none
    else
      let full := urljoin base_url s
      let sch := schemeOf full
      if sch = "http".toList ∨ sch = "https".toList then
        match env.httpFetch full with
        | some (body, ct) => .ok (some (body, guess_ext_from_content_type ct))
        | none => .ok none
      else .ok none

mutual
/-- A parsed DOM node (BeautifulSoup `Tag` or `NavigableString`): either a
text node or an element with a tag name, attributes and ordered children. -/
inductive HNode where
  | textNode : Str → HNode
  | elem : Str → List (Str × Str) → HForest → HNode
/-- An ordered list of sibling DOM nodes. -/
inductive HForest where
  | nil : HForest
  | cons : HNode → HForest → HForest
end

/-- Build a forest from a list of nodes. -/
def HForest.ofList : List HNode → HForest
  | [] => .nil
  | n :: r => .cons n (HForest.ofList r)

/-- The direct children of a node, as a list. -/
def HForest.toList : HForest → List HNode
  | .nil => []
  | .cons n f => n :: f.toList

/-- The tag name of a node (empty for text nodes). -/
def HNode.tag : HNode → Str
  | .textNode _ => []
  | .elem t _ _ => t

/-- The value of an attribute, as BeautifulSoup's `tag.get(name)`. -/
def HNode.attr (n : HNode) (name : Str) : Option Str :=
  match n with
  | .textNode _ => none
  | .elem _ attrs _ => (attrs.find? (fun p => p.1 == name)).map (fun p => p.2)

mutual
/-- All element descendants of a node (excluding the node itself), in
document (preorder) order — the search space of `soup.select` and
`soup.find_all`. -/
def HNode.descElems : HNode → List HNode
  | .textNode _ => []
  | .elem _ _ cs => HForest.descElems cs
/-- All element nodes of a forest and their element descendants, in
document order. -/
def HForest.descElems : HForest → List HNode
  | .nil => []
  | .cons n f =>
    (match n with
     | .textNode _ => []
     | .elem t a cs => HNode.elem t a cs :: HForest.descElems cs) ++ HForest.descElems f
end

mutual
/-- The descendant text fragments of a node, in document order
(BeautifulSoup's `_all_strings`). -/
def HNode.strings : HNode → List Str
  | .textNode s => [s]
  | .elem _ _ cs => HForest.strings cs
/-- The descendant text fragments of a forest, in document order. -/
def HForest.strings : HForest → List Str
  | .nil => []
  | .cons n f => HNode.strings n ++ HForest.strings f
end

/-- Model of `node.get_text(sep, strip=True)`: strip each descendant text
fragment, drop the ones that become empty, and join with `sep`. -/
def get_text (sep : Str) (n : HNode) : Str :=
  joinSep sep (((HNode.strings n).map pyStrip).filter (fun s => !s.isEmpty))

/-- The flattened text length `len(node.get_text("\n", strip=True))` used
by `pick_best_container`. -/
def textLen (n : HNode) : Nat := (get_text ['\n'] n).length

/-- Does the node carry `cls` as one of its whitespace-separated `class`
tokens (CSS class selector `.cls`)? -/
def hasClassToken (n : HNode) (cls : Str) : Bool :=
  match n.attr ("class".toList) with
  | none => false
  | some v => (splitWs v).any (fun t => t == cls)

/-- CSS substring attribute selector `[name*='sub']`. -/
def attrContains (n : HNode) (name sub : Str) : Bool :=
  match n.attr name with
  | none => false
  | some v => strContains sub v

/-- The prioritized candidate selectors of `pick_best_container`, in list
order, as predicates on element nodes. -/
def candidate_selectors : List (HNode → Bool) :=
  [fun n => n.tag == "article".toList,
   fun n => n.tag == "main".toList,
   fun n => n.attr ("id".toList) == some ("kb_article".toList),
   fun n => hasClassToken n ("kb-article".toList),
   fun n => hasClassToken n ("kb-article-content".toList),
   fun n => hasClassToken n ("kb-view".toList),
   fun n => hasClassToken n ("sn-kb-article".toList),
   fun n => hasClassToken n ("knowledge-article".toList),
   fun n => attrContains n ("id".toList) ("kb".toList),
   fun n => attrContains n ("class".toList) ("kb".toList),
   fun n => attrContains n ("class".toList) ("article".toList),
   fun n => attrContains n ("class".toList) ("content".toList)]

/-- The nodes visited by the candidate-selector loops of
`pick_best_container`: for each selector in order, its matches in document
order. -/
def candMatches (doc : HNode) : List HNode :=
  candidate_selectors.foldr (fun p acc => (HNode.descElems doc).filter p ++ acc) []

/-- The nodes visited by the fallback loop:
`soup.find_all(["div", "section", "article", "main"], recursive=True)`. -/
def blockMatches (doc : HNode) : List HNode :=
  (HNode.descElems doc).filter
    (fun n => (["div", "section", "article", "main"].map String.toList).any
      (fun t => n.tag == t))

/-- `soup.body`: the first `body` element in document order. -/
def findBody (doc : HNode) : Option HNode :=
  (HNode.descElems doc).find? (fun n => n.tag == "body".toList)

/-- The best-so-far scan shared by both loops of `pick_best_container`:
a node replaces the current best exactly when its flattened text length is
strictly greater. -/
def scanBest (init : Option HNode × Nat) (l : List HNode) : Option HNode × Nat :=
  l.foldl (fun acc n => if acc.2 < textLen n then (some n, textLen n) else acc) init

/-- The maximum flattened text length over a list of nodes. -/
def maxLen (l : List HNode) : Nat := l.foldr (fun n acc => max (textLen n) acc) 0

/-- Model of `pick_best_container`: scan the candidate selectors keeping
the strictly longest match; return it early when its text length is at
least 400; otherwise continue the same scan over all block-level
containers; fall back to `soup.body or soup`. -/
def pick_best_container (doc : HNode) : HNode :=
  let s1 := scanBest (none, 0) (candMatches doc)
  if s1.1.isSome ∧ 400 ≤ s1.2 then s1.1.getD doc
  else
    match (scanBest s1 (blockMatches doc)).1 with
    | some m => m
    | none => (findBody doc).getD doc

/-- Is the node one of the outright-removed `USELESS_TAGS`? -/
def useless_tag (n : HNode) : Bool :=
  (["script", "style", "noscript", "svg", "canvas"].map String.toList).any
    (fun t => n.tag == t)

/-- Does the node match one of the chrome `USELESS_SELECTORS`? -/
def useless_sel (n : HNode) : Bool :=
  (["header", "footer", "nav"].map String.toList).any (fun t => n.tag == t)
  || (["navigation", "banner", "contentinfo"].map String.toList).any
      (fun r => n.attr ("role".toList) == some r)
  || (["navbar", "nav", "navigation", "header", "footer", "sidebar",
       "side-nav", "toc", "breadcrumbs"].map String.toList).any
      (fun c => hasClassToken n c)

mutual
/-- Model of `soup_remove_useless`: decompose every useless element
subtree. -/
def removeUseless : HNode → HNode
  | .textNode s => .textNode s
  | .elem t a cs => .elem t a (removeUselessF cs)
/-- Remove useless element subtrees from a forest. -/
def removeUselessF : HForest → HForest
  | .nil => .nil
  | .cons n f =>
    (match n with
     | .textNode s => HForest.cons (.textNode s) (removeUselessF f)
     | .elem t a cs =>
       if useless_tag (.elem t a cs) || useless_sel (.elem t a cs) then removeUselessF f
       else HForest.cons (.elem t a (removeUselessF cs)) (removeUselessF f))
end

/-- Model of `extract_main_container`: the document title (from the first
`title` element, before chrome removal) and the container chosen by
`pick_best_container` after `soup_remove_useless`. -/
def extract_main_container (doc : HNode) : Str × HNode :=
  let title :=
    match (HNode.descElems doc).find? (fun n => n.tag == "title".toList) with
    | some t => get_text [] t
    | none => []
  (title, pick_best_container (removeUseless doc))

/-- A block of the output document, in emission order: heading, paragraph,
list item, or embedded image. -/
inductive Block where
  | heading : Nat → Str → Block
  | paragraph : Str → Block
  | listItem : Bool → Str → Block
  | image : List Nat → Str → Block
deriving DecidableEq

/-- Model of the builder's `add_text_paragraph`: normalize whitespace and
emit a paragraph unless the result is empty. -/
def add_text_paragraph (t : Str) : List Block :=
  let n := pyNormalize t
  if n.isEmpty then [] else [.paragraph n]

/-- Model of the builder's `add_heading`. -/
def add_heading (t : Str) (lvl : Nat) : List Block :=
  let n := pyNormalize t
  if n.isEmpty then [] else [.heading lvl n]

/-- Model of the builder's `add_list_item`. -/
def add_list_item (t : Str) (ordered : Bool) : List Block :=
  let n := pyNormalize t
  if n.isEmpty then [] else [.listItem ordered n]

/-- The placeholder paragraph text `[Image not downloaded]…`. -/
def imgNotDownloaded (alt : Str) : Str :=
  "[Image not downloaded]".toList ++ (if alt.isEmpty then [] else ": ".toList ++ alt)

/-- The placeholder paragraph text `[Image format not supported in Word: .ext]`. -/
def imgUnsupported (ext : Str) : Str :=
  "[Image format not supported in Word: .".toList ++ ext ++ "]".toList

/-- Model of the builder's `handle_img`: resolve the image source
(`src` falling back to `data-src`), emit the not-downloaded placeholder on
soft failure or empty bytes, otherwise an optional verbatim alt-text
caption followed by the picture (or the unsupported-format placeholder).
An exception escaping `fetch_image_bytes` propagates. -/
def handle_img (env : FetchEnv) (base_url : Str) (img : HNode) :
    Except Unit (List Block) :=
  let src :=
    match img.attr ("src".toList) with
    | some v =>
      if v.isEmpty then (img.attr ("data-src".toList)).getD [] else v
    | none => (img.attr ("data-src".toList)).getD []
  let alt := (img.attr ("alt".toList)).getD []
  match fetch_image_bytes env src base_url with
  | .error e => .error e
  | .ok none => .ok [.paragraph (imgNotDownloaded alt)]
  | .ok (some (bts, ext)) =>
    if bts.isEmpty then .ok [.paragraph (imgNotDownloaded alt)]
    else
      .ok ((if alt.isEmpty then [] else [Block.paragraph alt]) ++
        (if env.picture_ok bts ext then [Block.image bts ext]
         else [Block.paragraph (imgUnsupported ext)]))

/-- `node.find_all("img")`: all `img` descendants in document order. -/
def findImgs (n : HNode) : List HNode :=
  (HNode.descElems n).filter (fun m => m.tag == "img".toList)

/-- Sequence two fallible emissions, concatenating their blocks — the
builder's statement-after-statement emission inside one branch, with an
exception aborting the sequence. -/
def exceptAppend (r1 r2 : Except Unit (List Block)) : Except Unit (List Block) :=
  match r1 with
  | .error e => .error e
  | .ok bs1 =>
    match r2 with
    | .error e => .error e
    | .ok bs2 => .ok (bs1 ++ bs2)

/-- Handle a list of images in order, propagating any exception. -/
def handleImgs (env : FetchEnv) (base : Str) : List HNode → Except Unit (List Block)
  | [] => .ok []
  | i :: r => exceptAppend (handle_img env base i) (handleImgs env base r)

/-- `node.find_all("li", recursive=False)`: the direct `li` children. -/
def directLis (cs : HForest) : List HNode :=
  cs.toList.filter (fun n => n.tag == "li".toList)

/-- The `ul`/`ol` branch of `walk`: one list item per direct `li` child,
each followed by its images. -/
def walkLis (env : FetchEnv) (base : Str) (ordered : Bool) :
    List HNode → Except Unit (List Block)
  | [] => .ok []
  | li :: r =>
    exceptAppend (.ok (add_list_item (get_text [' '] li) ordered))
      (exceptAppend (handleImgs env base (findImgs li)) (walkLis env base ordered r))

/-- Is the (lowercased) tag name one of `h1`…`h6`? -/
def isHeadingName (nm : Str) : Bool :=
  (["h1", "h2", "h3", "h4", "h5", "h6"].map String.toList).any (fun t => nm == t)

/-- `min(4, int(name[1]))` for a heading tag name. -/
def headingLevel (nm : Str) : Nat :=
  match nm with
  | _ :: d :: _ => min 4 (d.toNat - 48)
  | _ => 1

mutual
/-- Model of the builder's `walk`: depth-first, order-preserving
traversal emitting blocks; script/style/noscript are skipped, headings,
paragraphs, lists, bare images and tables are emitted, and any other
element recurses into its direct children. Exceptions escaping
`handle_img` propagate and abort the walk. -/
def walk (env : FetchEnv) (base : Str) : HNode → Except Unit (List Block)
  | .textNode _ => .ok []
  | .elem name attrs children =>
    let node := HNode.elem name attrs children
    let nm := pyLower name
    if nm = "script".toList ∨ nm = "style".toList ∨ nm = "noscript".toList then .ok []
    else if isHeadingName nm then
      .ok (add_heading (get_text [' '] node) (headingLevel nm))
    else if nm = "p".toList then
      (let txt := get_text [' '] node
       exceptAppend (.ok (if txt.isEmpty then [] else add_text_paragraph txt))
         (handleImgs env base (findImgs node)))
    else if nm = "ul".toList ∨ nm = "ol".toList then
      walkLis env base (nm = "ol".toList) (directLis children)
    else if nm = "img".toList then handle_img env base node
    else if nm = "table".toList then
      (let txt := get_text ['\n'] node
       exceptAppend (.ok (if txt.isEmpty then [] else add_text_paragraph txt))
         (handleImgs env base (findImgs node)))
    else walkForest env base children
/-- Walk the children of a node in order, concatenating their blocks. -/
def walkForest (env : FetchEnv) (base : Str) : HForest → Except Unit (List Block)
  | .nil => .ok []
  | .cons n f => exceptAppend (walk env base n) (walkForest env base f)
end

/-- The children of a node, as a forest. -/
def HNode.children : HNode → HForest
  | .textNode _ => .nil
  | .elem _ _ cs => cs

/-- Model of `build_docx` as the ordered block sequence of the produced
document: the fixed preamble (title heading, source line, empty spacer
paragraph — emitted with the raw docx API, not the normalizing helpers)
followed by the walk of the container's children. `Except.error` models an
exception escaping the build (no document is saved). -/
def build_docx (env : FetchEnv) (title source_url : Str) (container : HNode) :
    Except Unit (List Block) :=
  match walkForest env source_url container.children with
  | .error e => .error e
  | .ok bs =>
    .ok ([Block.heading 1 (if title.isEmpty then "Knowledge Article".toList else title),
          Block.paragraph ("Source: ".toList ++ source_url),
          Block.paragraph []] ++ bs)

/-- The outcome of one target of the batch loop: a saved document's
blocks, or a caught exception (status FAIL, no document written). -/
inductive TargetOutcome where
  | produced : List Block → TargetOutcome
  | failed : Str → TargetOutcome
deriving DecidableEq

/-- The message of the `RuntimeError` raised when a login page is reached
headless (the spec's `InteractionRequired`). -/
def ssoHeadlessMsg : Str :=
  "Redirected to SSO in headless mode. Re-run with --headed.".toList

/-- Model of one iteration of `main`'s per-target try block after
navigation: `landed_url` is `page.url` after `goto_with_sso_retry`, `doc`
the page's parsed HTML, `obs` the lengths the readiness poll would
observe. If the landed URL is login-classified and the run is headless,
the target fails before any document is built; otherwise the readiness
wait runs, the main container is extracted, and the document is built and
saved (an exception escaping the build makes the target fail with no
document). The headed interactive retry is modelled as proceeding with
the already-landed page. -/
def run_target (env : FetchEnv) (headed : Bool) (landed_url : Str) (doc : HNode)
    (min_chars : Nat) (obs : List Nat) : TargetOutcome :=
  if looks_like_login landed_url ∧ headed = false then .failed ssoHeadlessMsg
  else
    let _observed := wait_for_text_length min_chars obs
    let tc := extract_main_container doc
    match build_docx env tc.1 landed_url tc.2 with
    | .error _ => .failed ("unhandled exception during document build".toList)
    | .ok blocks => .produced blocks

/-- A concrete environment whose blob and http oracles always fail softly
and whose picture embedding always succeeds. -/
def trivEnv : FetchEnv :=
  { blobFetch := fun _ => none
    httpFetch := fun _ => none
    picture_ok := fun _ _ => true }

/-- A container whose only child is an image with a malformed inline
`data:` source (no comma, so `src.split(",", 1)` cannot unpack). -/
def c1Container : HNode :=
  .elem ("div".toList) []
    (HForest.ofList [.elem ("img".toList) [("src".toList, "data:image/png".toList)] .nil])

/-- A two-cell table: `<table><tr><td>a</td><td>b</td></tr></table>`. -/
def c3Table : HNode :=
  .elem ("table".toList) []
    (HForest.ofList [.elem ("tr".toList) []
      (HForest.ofList [.elem ("td".toList) [] (HForest.ofList [.textNode "a".toList]),
                       .elem ("td".toList) [] (HForest.ofList [.textNode "b".toList])])])

/-- An image with a decodable one-byte inline source and a
whitespace-only `alt` attribute. -/
def c10Img : HNode :=
  .elem ("img".toList)
    [("src".toList, "data:image/png;base64,AA==".toList), ("alt".toList, "  ".toList)] .nil

/-- `<span class="content">hello</span>`: matched by the candidate
selector `[class*='content']` but not a block-level container. -/
def spanNode : HNode :=
  .elem ("span".toList) [("class".toList, "content".toList)]
    (HForest.ofList [.textNode "hello".toList])

/-- `<div>abc</div>`: a block-level container, shorter than the span. -/
def divNode : HNode :=
  .elem ("div".toList) [] (HForest.ofList [.textNode "abc".toList])

/-- `<section>xyz</section>`: a node whose flattened text length equals
`divNode`'s. -/
def divNode2 : HNode :=
  .elem ("section".toList) [] (HForest.ofList [.textNode "xyz".toList])

/-- A document whose only candidate match is the (non-block) span and
whose only block-level container is the shorter div. -/
def c2Doc : HNode :=
  .elem ("[document]".toList) []
    (HForest.ofList [.elem ("html".toList) []
      (HForest.ofList [.elem ("body".toList) [] (HForest.ofList [spanNode, divNode])])])

/-- A body containing only a bare span: nothing matches any candidate
selector or block-level tag. -/
def bodyNode : HNode :=
  .elem ("body".toList) []
    (HForest.ofList [.elem ("span".toList) [] (HForest.ofList [.textNode "hi".toList])])

/-- A document with no candidate and no block-level matches. -/
def c9Doc : HNode :=
  .elem ("[document]".toList) []
    (HForest.ofList [.elem ("html".toList) [] (HForest.ofList [bodyNode])])

/-- The well-formedness the amended C10 asserts of every emitted block:
headings and list items carry nonempty text that stays nonempty under
whitespace normalization; paragraphs are never the empty string (a
whitespace-only image caption is possible); images are unconstrained. -/
def BlockOk : Block → Prop
  | .heading _ t => t ≠ [] ∧ pyNormalize t ≠ []
  | .listItem _ t => t ≠ [] ∧ pyNormalize t ≠ []
  | .paragraph t => t ≠ []
  | .image _ _ => True

/-! ## Theorems -/

/-- A string with no `/target/<path>` wrapper decodes to itself. -/
theorem decode_target_no_wrapper (s : Str) (h : findTarget s = none) :
    decode_target_to_direct_url s = s := by
  unfold decode_target_to_direct_url
  rw [h]

/-- C4: for every URL containing a redirect-wrapper segment
`…/target/<percent-encoded-path>` and an http(s) scheme+host, decoding
yields the percent-decoded path itself when that is already an absolute
http/https URL, and otherwise that path prefixed with the scheme and host
of the original URL; and applying the decode a second time to a decoded
result with no further wrapper returns it unchanged. -/
theorem decode_target_spec (url enc host : Str)
    (h1 : findTarget url = some enc) (h2 : hostMatch url = some host) :
    (decode_target_to_direct_url url =
      if isAbsHttp (unquote enc) then unquote enc
      else host ++ '/' :: (unquote enc).dropWhile (fun d => d == '/'))
    ∧ (findTarget (decode_target_to_direct_url url) = none →
        decode_target_to_direct_url (decode_target_to_direct_url url) =
          decode_target_to_direct_url url) := by
  refine ⟨?_, fun hn => decode_target_no_wrapper _ hn⟩
  unfold decode_target_to_direct_url
  rw [h1]
  by_cases hA : isAbsHttp (unquote enc) = true
  · simp [hA]
  · simp only [Bool.not_eq_true] at hA
    simp [hA, h2]

/-- Witness for C4 at the function docstring's example shape. -/
theorem decode_target_spec_witness :
    decode_target_to_direct_url ("https://x.y/z/target/kb_view.do%3Fa%3DKB1".toList) =
      ("https://x.y/kb_view.do?a=KB1".toList) := by
  have h := (decode_target_spec ("https://x.y/z/target/kb_view.do%3Fa%3DKB1".toList)
      ("kb_view.do%3Fa%3DKB1".toList) ("https://x.y".toList) (by decide) (by decide)).1
  exact h.trans (by decide)

/-- The polling loop always returns the last length it observed. -/
theorem wait_poll_aux_last (m : Nat) :
    ∀ (obs : List Nat) (last : Nat),
      (wait_poll_aux m obs last).2 =
        (obs.take (wait_poll_aux m obs last).1).getLastD last := by
  intro obs
  induction obs with
  | nil => intro last; simp [wait_poll_aux]
  | cons l rest ih =>
    intro last
    by_cases h : m ≤ l
    · simp [wait_poll_aux, h]
    · simp only [wait_poll_aux, if_neg h, List.take_succ_cons, List.getLastD_cons]
      exact ih l

/-- When no poll reaches the threshold the loop runs through every poll. -/
theorem wait_poll_aux_timeout (m : Nat) :
    ∀ (obs : List Nat) (last : Nat), (∀ l ∈ obs, l < m) →
      wait_poll_aux m obs last = (obs.length, obs.getLastD last) := by
  intro obs
  induction obs with
  | nil => intro last _; simp [wait_poll_aux]
  | cons l rest ih =>
    intro last h
    have hl : ¬ m ≤ l := by
      have := h l (List.mem_cons_self l rest)
      omega
    simp only [wait_poll_aux, if_neg hl, List.length_cons, List.getLastD_cons]
    rw [ih l (fun x hx => h x (List.mem_cons_of_mem l hx))]

/-- The loop returns at the first poll that reaches the threshold. -/
theorem wait_poll_aux_first_cross (m : Nat) :
    ∀ (obs : List Nat) (last i : Nat), (∀ j < i, obs.getD j 0 < m) →
      i < obs.length → m ≤ obs.getD i 0 →
      wait_poll_aux m obs last = (i + 1, obs.getD i 0) := by
  intro obs
  induction obs with
  | nil => intro last i _ hi _; simp at hi
  | cons l rest ih =>
    intro last i hbefore hi hcross
    match i with
    | 0 =>
      simp only [List.getD_cons_zero] at hcross
      simp [wait_poll_aux, hcross]
    | i + 1 =>
      have hl : ¬ m ≤ l := by
        have := hbefore 0 (Nat.succ_pos i)
        simp only [List.getD_cons_zero] at this
        omega
      simp only [wait_poll_aux, if_neg hl]
      rw [ih l i (fun j hj => hbefore (j + 1) (by omega)) (by simpa using hi)
        (by simpa using hcross)]
      simp only [List.getD_cons_succ]

/-- C6: the content-readiness wait never fails and always returns the last
observed text length — when no poll reaches `minChars` it runs through
every poll of the window and returns the final length — and it returns
immediately at the first poll whose length meets or exceeds `minChars`,
with that length, without waiting out the remaining polls. -/
theorem wait_for_text_length_spec (m : Nat) (obs : List Nat) :
    ((wait_for_text_length m obs).2 =
      (obs.take (wait_for_text_length m obs).1).getLastD 0)
    ∧ ((∀ l ∈ obs, l < m) → wait_for_text_length m obs = (obs.length, obs.getLastD 0))
    ∧ (∀ i, (∀ j < i, obs.getD j 0 < m) → i < obs.length → m ≤ obs.getD i 0 →
        wait_for_text_length m obs = (i + 1, obs.getD i 0)) :=
  ⟨wait_poll_aux_last m obs 0, wait_poll_aux_timeout m obs 0,
   fun i h1 h2 h3 => wait_poll_aux_first_cross m obs 0 i h1 h2 h3⟩

/-- Every 6-bit value round-trips through the base64 alphabet. -/
theorem b64val_b64char : ∀ v : Fin 64, b64val (b64char v.val) = some v.val := by decide

/-- Version of `b64val_b64char` for bounded naturals. -/
theorem b64val_b64char_nat (v : Nat) (h : v < 64) : b64val (b64char v) = some v :=
  b64val_b64char ⟨v, h⟩

/-- No alphabet character is the padding character. -/
theorem b64char_ne_pad : ∀ v : Fin 64, (b64char v.val == '=') = false := by decide

/-- Version of `b64char_ne_pad` for bounded naturals. -/
theorem b64char_ne_pad_nat (v : Nat) (h : v < 64) : (b64char v == '=') = false :=
  b64char_ne_pad ⟨v, h⟩

/-- Every character emitted by the encoder survives the decoder's
character filter. -/
theorem b64encode_chars : ∀ (bs : List Nat), (∀ b ∈ bs, b < 256) →
    ∀ c ∈ b64encode bs, ((b64val c).isSome || c == '=') = true := by
  intro bs
  induction bs using b64encode.induct with
  | case1 b0 b1 b2 r ih =>
    intro h c hc
    have h0 : b0 < 256 := h _ (by simp)
    have h1 : b1 < 256 := h _ (by simp)
    have h2 : b2 < 256 := h _ (by simp)
    simp only [b64encode, List.mem_cons] at hc
    rcases hc with rfl | rfl | rfl | rfl | hc
    · simp [b64val_b64char_nat _ (by omega : b0 / 4 < 64)]
    · simp [b64val_b64char_nat _ (by omega : b0 % 4 * 16 + b1 / 16 < 64)]
    · simp [b64val_b64char_nat _ (by omega : b1 % 16 * 4 + b2 / 64 < 64)]
    · simp [b64val_b64char_nat _ (by omega : b2 % 64 < 64)]
    · exact ih (fun b hb => h b (by simp [hb])) c hc
  | case2 b0 b1 =>
    intro h c hc
    have h0 : b0 < 256 := h _ (by simp)
    have h1 : b1 < 256 := h _ (by simp)
    simp only [b64encode, List.mem_cons] at hc
    rcases hc with rfl | rfl | rfl | rfl | hc
    · simp [b64val_b64char_nat _ (by omega : b0 / 4 < 64)]
    · simp [b64val_b64char_nat _ (by omega : b0 % 4 * 16 + b1 / 16 < 64)]
    · simp [b64val_b64char_nat _ (by omega : b1 % 16 * 4 < 64)]
    · simp
    · simp at hc
  | case3 b0 =>
    intro h c hc
    have h0 : b0 < 256 := h _ (by simp)
    simp only [b64encode, List.mem_cons] at hc
    rcases hc with rfl | rfl | rfl | rfl | hc
    · simp [b64val_b64char_nat _ (by omega : b0 / 4 < 64)]
    · simp [b64val_b64char_nat _ (by omega : b0 % 4 * 16 < 64)]
    · simp
    · simp
    · simp at hc
  | case4 => intro _ c hc; simp [b64encode] at hc

/-- The decoder's character filter leaves encoder output unchanged. -/
theorem b64encode_filter (bs : List Nat) (h : ∀ b ∈ bs, b < 256) :
    (b64encode bs).filter (fun c => (b64val c).isSome || c == '=') = b64encode bs :=
  List.filter_eq_self.mpr (b64encode_chars bs h)

/-- Chunk decoding inverts chunk encoding on byte lists. -/
theorem decB_b64encode : ∀ (bs : List Nat), (∀ b ∈ bs, b < 256) →
    decB (b64encode bs) = some bs := by
  intro bs
  induction bs using b64encode.induct with
  | case1 b0 b1 b2 r ih =>
    intro h
    have h0 : b0 < 256 := h _ (by simp)
    have h1 : b1 < 256 := h _ (by simp)
    have h2 : b2 < 256 := h _ (by simp)
    have ih2 := ih (fun b hb => h b (by simp [hb]))
    simp only [b64encode, decB,
      b64val_b64char_nat _ (by omega : b0 / 4 < 64),
      b64val_b64char_nat _ (by omega : b0 % 4 * 16 + b1 / 16 < 64),
      b64val_b64char_nat _ (by omega : b1 % 16 * 4 + b2 / 64 < 64),
      b64val_b64char_nat _ (by omega : b2 % 64 < 64),
      b64char_ne_pad_nat _ (by omega : b2 % 64 < 64), ih2]
    simp only [Bool.false_eq_true, if_false, Option.some.injEq, List.cons.injEq]
    refine ⟨by omega, by omega, by omega, trivial⟩
  | case2 b0 b1 =>
    intro h
    have h0 : b0 < 256 := h _ (by simp)
    have h1 : b1 < 256 := h _ (by simp)
    simp only [b64encode, decB,
      b64val_b64char_nat _ (by omega : b0 / 4 < 64),
      b64val_b64char_nat _ (by omega : b0 % 4 * 16 + b1 / 16 < 64),
      b64val_b64char_nat _ (by omega : b1 % 16 * 4 < 64),
      b64char_ne_pad_nat _ (by omega : b1 % 16 * 4 < 64)]
    simp only [beq_self_eq_true, if_true, List.isEmpty_nil, Bool.not_true,
      Bool.false_eq_true, if_false, Option.some.injEq, List.cons.injEq]
    refine ⟨by omega, by omega, trivial⟩
  | case3 b0 =>
    intro h
    have h0 : b0 < 256 := h _ (by simp)
    simp only [b64encode, decB, b64val_b64char_nat _ (by omega : b0 / 4 < 64),
      b64val_b64char_nat _ (by omega : b0 % 4 * 16 < 64)]
    simp only [beq_self_eq_true, if_true, List.isEmpty_nil, Bool.not_true,
      Bool.false_eq_true, if_false, Option.some.injEq, List.cons.injEq]
    refine ⟨by omega, trivial⟩
  | case4 => intro _; rfl

/-- The modelled `base64.b64decode` inverts `base64.b64encode`. -/
theorem b64decode_b64encode (bs : List Nat) (h : ∀ b ∈ bs, b < 256) :
    b64decode (b64encode bs) = some bs := by
  unfold b64decode
  rw [b64encode_filter bs h, decB_b64encode bs h]

/-- `takeWhile`/`dropWhile` across an all-satisfying piece followed by a
failing character. -/
theorem takeWhile_append_stop (p : Char → Bool) (d : Char) (hd : p d = false) :
    ∀ (s t : Str), (∀ c ∈ s, p c = true) →
      (s ++ d :: t).takeWhile p = s ∧ (s ++ d :: t).dropWhile p = d :: t := by
  intro s
  induction s with
  | nil => intro t _; simp [List.takeWhile_cons, List.dropWhile_cons, hd]
  | cons c r ih =>
    intro t h
    have hc : p c = true := h c (by simp)
    have hr := ih t (fun x hx => h x (by simp [hx]))
    simp [List.takeWhile_cons, List.dropWhile_cons, hc, hr.1, hr.2]

/-- A lowercase literal matches itself as a case-insensitive leading piece
of any extension. -/
theorem lowerPrefixMatch_append :
    ∀ (lit rest : Str), (∀ c ∈ lit, c.toLower = c) →
      lowerPrefixMatch lit (lit ++ rest) = some rest := by
  intro lit
  induction lit with
  | nil => intro rest _; rfl
  | cons c r ih =>
    intro rest h
    have hc : c.toLower = c := h c (by simp)
    simp only [List.cons_append, lowerPrefixMatch, hc, beq_self_eq_true, if_true]
    exact ih rest (fun x hx => h x (by simp [hx]))

/-- The subtype regex extracts the declared media subtype from a
well-formed `data:image/<subtype>;base64` header. -/
theorem findSubtype_mk (s : Str) (hne : s.isEmpty = false)
    (hsemi : ∀ c ∈ s, (c != ';') = true) :
    findSubtype (dataImageLit ++ (s ++ base64Lit)) = some s := by
  have hstop := takeWhile_append_stop (fun d => d != ';') ';' (by decide) s
      ['b', 'a', 's', 'e', '6', '4'] hsemi
  have hm : lowerPrefixMatch dataImageLit
      ('d' :: 'a' :: 't' :: 'a' :: ':' :: 'i' :: 'm' :: 'a' :: 'g' :: 'e' :: '/' ::
        (s ++ [';', 'b', 'a', 's', 'e', '6', '4'])) =
      some (s ++ [';', 'b', 'a', 's', 'e', '6', '4']) := by
    have := lowerPrefixMatch_append dataImageLit
      (s ++ [';', 'b', 'a', 's', 'e', '6', '4']) (by decide)
    simpa [dataImageLit] using this
  have hb : s ++ base64Lit = s ++ [';', 'b', 'a', 's', 'e', '6', '4'] := rfl
  rw [hb]
  simp only [dataImageLit, List.cons_append, List.nil_append]
  rw [findSubtype]
  simp only [hm, hstop.1, hstop.2, hne, Bool.false_eq_true, if_false,
    (by decide : lowerPrefixMatch base64Lit [';', 'b', 'a', 's', 'e', '6', '4'] = some [])]

/-- Splitting at the first separator occurrence after a separator-free
piece. -/
theorem splitFirst_append (c : Char) :
    ∀ (a b : Str), (∀ d ∈ a, (d != c) = true) → splitFirst c (a ++ c :: b) = some (a, b) := by
  intro a
  induction a with
  | nil => intro b _; simp [splitFirst]
  | cons d r ih =>
    intro b h
    have hd : (d == c) = false := by
      have := h d (by simp)
      simpa using this
    simp [splitFirst, hd, ih b (fun x hx => h x (by simp [hx]))]

/-- `str.replace` leaves a string without any occurrence of the pattern
unchanged. -/
theorem pyReplaceFuel_no_occur (pat rep : Str) (hpat : pat.isEmpty = false) :
    ∀ (f : Nat) (s : Str), strContains pat s = false → pyReplaceFuel pat rep f s = s := by
  intro f
  induction f with
  | zero => intro s _; cases s <;> simp [pyReplaceFuel]
  | succ g ih =>
    intro s h
    cases s with
    | nil => simp [pyReplaceFuel]
    | cons c r =>
      simp only [strContains, Bool.or_eq_false_iff] at h
      simp only [pyReplaceFuel, hpat, Bool.false_eq_true, if_false]
      rcases hdc : dropCount pat (c :: r) with _ | rest
      · simp [ih r h.2]
      · rw [hdc] at h
        simp at h

/-- `str.replace` on a pattern-free string. -/
theorem pyReplace_no_occur (pat rep s : Str) (hpat : pat.isEmpty = false)
    (h : strContains pat s = false) : pyReplace pat rep s = s :=
  pyReplaceFuel_no_occur pat rep hpat s.length s h

/-- C5 counterexample: for the declared media subtype `pjpeg` (the
legacy progressive-JPEG subtype) image resolution returns the format
hint `pjpg` — the code's `lower().replace("jpeg", "jpg")` is a substring
replace — which is neither the declared subtype `pjpeg` nor the result
of normalizing an exact subtype `jpeg`, refuting the claim that the hint
equals the declared media subtype with (only) subtype `jpeg` normalized
to `jpg`. -/
theorem decode_data_image_pjpeg_counterexample :
    decode_data_image ("data:image/pjpeg;base64,AA==".toList) =
      some ([0], "pjpg".toList) ∧
    ("pjpg".toList : Str) ≠ "pjpeg".toList ∧
    ("pjpeg".toList : Str) ≠ "jpeg".toList :=
  ⟨rfl, by decide, by decide⟩

/-- C5 (amended): resolving an inline-encoded image
`data:image/<subtype>;base64,<payload>` returns exactly the
base64-decoded payload bytes together with a format hint equal to the
lowercased declared media subtype with every occurrence of `jpeg`
replaced by `jpg` — so subtype `jpeg` itself is normalized to `jpg`,
but a subtype merely containing `jpeg` (such as `pjpeg`) is rewritten
inside as well (stated for every payload and every nonempty
comma/semicolon-free lowercase subtype). -/
theorem decode_data_image_spec (bs : List Nat) (s : Str)
    (hb : ∀ b ∈ bs, b < 256)
    (hne : s.isEmpty = false)
    (hsemi : ∀ c ∈ s, (c != ';') = true)
    (hcomma : ∀ c ∈ s, (c != ',') = true)
    (hlow : pyLower s = s) :
    decode_data_image ((dataImageLit ++ (s ++ base64Lit)) ++ ',' :: b64encode bs) =
      some (bs, pyReplace ("jpeg".toList) ("jpg".toList) s) := by
  have hsplit : splitFirst ',' ((dataImageLit ++ (s ++ base64Lit)) ++ ',' :: b64encode bs) =
      some (dataImageLit ++ (s ++ base64Lit), b64encode bs) := by
    refine splitFirst_append ',' _ _ ?_
    intro d hd
    rcases List.mem_append.mp hd with hd1 | hd1
    · exact (by decide : ∀ x ∈ dataImageLit, (x != ',') = true) d hd1
    · rcases List.mem_append.mp hd1 with hd2 | hd2
      · exact hcomma d hd2
      · exact (by decide : ∀ x ∈ base64Lit, (x != ',') = true) d hd2
  unfold decode_data_image
  simp only [hsplit, findSubtype_mk s hne hsemi, b64decode_b64encode bs hb, hlow]

/-- Witness for the amended C5: a three-byte `png` payload. -/
theorem decode_data_image_spec_witness :
    decode_data_image ("data:image/png;base64,AQID".toList) =
      some ([1, 2, 3], "png".toList) := by
  have h := decode_data_image_spec [1, 2, 3] ['p', 'n', 'g'] (by decide) (by decide)
    (by decide) (by decide) (by decide)
  exact (by decide : ("data:image/png;base64,AQID".toList) =
    ((dataImageLit ++ (['p', 'n', 'g'] ++ base64Lit)) ++ ',' :: b64encode [1, 2, 3])) ▸
    h.trans (by decide)

/-- Witness for C6: with threshold 800 and observed lengths
100, 500, 900, 950 the wait returns at the third poll with 900, skipping
the remaining poll. -/
theorem wait_for_text_length_spec_witness :
    wait_for_text_length 800 [100, 500, 900, 950] = (3, 900) :=
  (wait_for_text_length_spec 800 [100, 500, 900, 950]).2.2 2 (by decide) (by decide)
    (by decide)

/-- C7: a navigation that lands on a login-classified URL in headless
(non-interactive) mode makes the target fail with the interaction-required
error before any document is built. -/
theorem run_target_login_headless (env : FetchEnv) (url : Str) (doc : HNode)
    (m : Nat) (obs : List Nat) (h : looks_like_login url = true) :
    run_target env false url doc m obs = .failed ssoHeadlessMsg := by
  simp [run_target, h]

/-- Witness for C7 at a concrete identity-provider URL. -/
theorem run_target_login_headless_witness :
    run_target trivEnv false ("https://login.microsoftonline.com/a".toList)
      (.textNode []) 800 [] = .failed ssoHeadlessMsg :=
  run_target_login_headless trivEnv _ _ 800 [] (by decide)

/-- Unfolding `maxLen` over a cons. -/
theorem maxLen_cons (n : HNode) (l : List HNode) :
    maxLen (n :: l) = max (textLen n) (maxLen l) := rfl

/-- The best-so-far scan returns the first node whose flattened text
length attains the maximum, provided the maximum beats the carried
best length; otherwise it keeps the carried state. -/
theorem scanBest_spec : ∀ (l : List HNode) (b0 : Option HNode) (n0 : Nat),
    scanBest (b0, n0) l =
      if n0 < maxLen l then
        (l.find? (fun n => decide (maxLen l ≤ textLen n)), maxLen l)
      else (b0, n0) := by
  intro l
  induction l with
  | nil =>
    intro b0 n0
    simp [scanBest, maxLen]
  | cons c r ih =>
    intro b0 n0
    have hstep : scanBest (b0, n0) (c :: r) =
        scanBest (if n0 < textLen c then (some c, textLen c) else (b0, n0)) r := by
      simp only [scanBest, List.foldl_cons]
    rw [hstep, maxLen_cons]
    by_cases h1 : n0 < textLen c
    · rw [if_pos h1, ih]
      by_cases h2 : textLen c < maxLen r
      · rw [if_pos h2, if_pos (by omega), Nat.max_eq_right (by omega)]
        rw [List.find?_cons_of_neg _ (by simp; omega)]
      · rw [if_neg h2, if_pos (by omega), Nat.max_eq_left (by omega)]
        rw [List.find?_cons_of_pos _ (by simp)]
    · rw [if_neg h1, ih]
      by_cases h3 : n0 < maxLen r
      · rw [if_pos h3, if_pos (by omega), Nat.max_eq_right (by omega)]
        rw [List.find?_cons_of_neg _ (by simp; omega)]
      · rw [if_neg h3, if_neg (by omega)]

/-- A positive maximum text length is attained by some list element. -/
theorem maxLen_attained : ∀ l : List HNode, 0 < maxLen l → ∃ n ∈ l, textLen n = maxLen l := by
  intro l
  induction l with
  | nil => intro h; simp [maxLen] at h
  | cons c r ih =>
    intro h
    rw [maxLen_cons] at h ⊢
    by_cases h2 : maxLen r ≤ textLen c
    · exact ⟨c, by simp, by omega⟩
    · obtain ⟨n, hn, he⟩ := ih (by omega)
      exact ⟨n, by simp [hn], by omega⟩

/-- `find?` succeeds when some member satisfies the predicate. -/
theorem find?_some_of_mem {p : HNode → Bool} :
    ∀ (l : List HNode) (x : HNode), x ∈ l → p x = true → ∃ y, l.find? p = some y := by
  intro l
  induction l with
  | nil => intro x hx _; simp at hx
  | cons c r ih =>
    intro x hx hp
    by_cases hc : p c = true
    · exact ⟨c, List.find?_cons_of_pos _ hc⟩
    · rcases List.mem_cons.mp hx with rfl | hx2
      · exact absurd hp hc
      · obtain ⟨y, hy⟩ := ih x hx2 hp
        exact ⟨y, by rw [List.find?_cons_of_neg _ (by simpa using hc)]; exact hy⟩

/-- C8: in the main-content scan a candidate replaces the current best
only when its flattened text length is strictly greater, so among
equal-length candidates the one encountered first (selector list order,
then document order) is kept: starting from the empty best, the scan
returns the first node attaining the maximum length. -/
theorem scanBest_keeps_first_max (l : List HNode) (h : 0 < maxLen l) :
    scanBest (none, 0) l =
      (l.find? (fun n => decide (maxLen l ≤ textLen n)), maxLen l) := by
  rw [scanBest_spec l none 0, if_pos h]

/-- Witness for C8: two equal-length matches — the first (`divNode`,
text `abc`) is kept over the equally long later one (`divNode2`,
text `xyz`). -/
theorem scanBest_keeps_first_max_witness :
    scanBest (none, 0) [divNode, divNode2] = (some divNode, 3) := by
  rw [scanBest_keeps_first_max [divNode, divNode2] (by decide)]
  rfl

/-- C2 counterexample: with every candidate shorter than 400 characters
the selector does not return the longest block-level container — on
`c2Doc` the fallback scan keeps the non-block candidate `<span
class="content">hello</span>` even though the only block-level container
is `<div>abc</div>`. -/
theorem pick_best_container_c2Doc :
    pick_best_container c2Doc = spanNode ∧
    candMatches c2Doc = [spanNode] ∧
    maxLen (candMatches c2Doc) < 400 ∧
    blockMatches c2Doc = [divNode] ∧
    pick_best_container c2Doc ≠ divNode := by
  refine ⟨rfl, rfl, by decide, rfl, ?_⟩
  intro h
  exact absurd (congrArg HNode.tag h) (by decide)

/-- C2 (amended): the selector first scans the prioritized candidate
selectors keeping the match with the greatest flattened text length and
returns it if that length is at least 400; otherwise it continues the
same strictly-greater scan over all block-level containers
(div/section/article/main) and returns the node with the single largest
flattened text length among the candidate matches and the block-level
containers together (the earlier candidate is kept on ties), not
necessarily a block-level container. -/
theorem pick_best_container_fallback (doc : HNode)
    (h400 : maxLen (candMatches doc) < 400)
    (hpos : 0 < maxLen (candMatches doc ++ blockMatches doc)) :
    pick_best_container doc =
      ((candMatches doc ++ blockMatches doc).find?
        (fun n => decide (maxLen (candMatches doc ++ blockMatches doc) ≤ textLen n))).getD
        doc := by
  have hcomb : scanBest (scanBest (none, 0) (candMatches doc)) (blockMatches doc)
      = scanBest (none, 0) (candMatches doc ++ blockMatches doc) := by
    simp [scanBest, List.foldl_append]
  have hspec := scanBest_spec (candMatches doc ++ blockMatches doc) none 0
  rw [if_pos hpos] at hspec
  obtain ⟨n, hn, he⟩ := maxLen_attained _ hpos
  obtain ⟨y, hy⟩ :=
    @find?_some_of_mem
      (fun m => decide (maxLen (candMatches doc ++ blockMatches doc) ≤ textLen m))
      (candMatches doc ++ blockMatches doc) n hn (by simp only [decide_eq_true_eq]; omega)
  have hs1 := scanBest_spec (candMatches doc) none 0
  have hno : ¬ ((scanBest (none, 0) (candMatches doc)).1.isSome = true ∧
      400 ≤ (scanBest (none, 0) (candMatches doc)).2) := by
    rw [hs1]
    by_cases hc : 0 < maxLen (candMatches doc)
    · rw [if_pos hc]
      simp only [not_and]
      intro _
      omega
    · rw [if_neg hc]
      simp only [not_and]
      intro hfalse
      simp at hfalse
  simp only [pick_best_container]
  rw [if_neg hno, hcomb, hspec, hy]
  rfl

/-- Witness for the amended C2 on `c2Doc`: the combined scan keeps the
span. -/
theorem pick_best_container_fallback_witness :
    pick_best_container c2Doc = spanNode := by
  have h := pick_best_container_fallback c2Doc (by decide) (by decide)
  exact h.trans (by rfl)

/-- C9: the main-content selector always returns a node (it is total),
and when no candidate selector and no block-level container matches it
returns the document body, or the whole document when there is no body. -/
theorem pick_best_container_body (doc : HNode)
    (h1 : candMatches doc = []) (h2 : blockMatches doc = []) :
    pick_best_container doc = (findBody doc).getD doc := by
  simp only [pick_best_container, h1, h2]
  rfl

/-- Witness for C9: a document with no candidate or block matches falls
back to its body element. -/
theorem pick_best_container_body_witness :
    pick_best_container c9Doc = bodyNode := by
  have h := pick_best_container_body c9Doc rfl rfl
  exact h.trans (by rfl)

/-- The head surviving a `dropWhile` fails the predicate. -/
theorem dropWhile_head_false (p : Char → Bool) :
    ∀ (l : Str) (c : Char) (r : Str), l.dropWhile p = c :: r → p c = false := by
  intro l
  induction l with
  | nil => intro c r h; simp at h
  | cons a t ih =>
    intro c r h
    rw [List.dropWhile_cons] at h
    by_cases ha : p a = true
    · rw [if_pos ha] at h
      exact ih c r h
    · rw [if_neg ha] at h
      injection h with h1 _
      subst h1
      simpa using ha

/-- `dropWhile` removes a leading piece. -/
theorem dropWhile_suffix_ex (p : Char → Bool) :
    ∀ l : Str, ∃ pre, pre ++ l.dropWhile p = l := by
  intro l
  induction l with
  | nil => exact ⟨[], rfl⟩
  | cons a t ih =>
    by_cases ha : p a = true
    · obtain ⟨pre, hp⟩ := ih
      exact ⟨a :: pre, by simp [List.dropWhile_cons, ha, hp]⟩
    · exact ⟨[], by simp [List.dropWhile_cons, ha]⟩

/-- A stripped string never starts with whitespace. -/
theorem pyStrip_head_not_space (s : Str) (c : Char) (r : Str)
    (h : pyStrip s = c :: r) : isSpace c = false := by
  unfold pyStrip at h
  rcases hy : s.dropWhile isSpace with _ | ⟨a, t⟩
  · rw [hy] at h
    simp at h
  · have ha : isSpace a = false := dropWhile_head_false isSpace s a t hy
    rw [hy] at h
    obtain ⟨pre, hpre⟩ := dropWhile_suffix_ex isSpace (a :: t).reverse
    have hrev : ((a :: t).reverse.dropWhile isSpace).reverse ++ pre.reverse = a :: t := by
      have h2 := congrArg List.reverse hpre
      simpa [List.reverse_append] using h2
    rw [h, List.cons_append] at hrev
    injection hrev with h1 _
    subst h1
    exact ha

/-- Stripping preserves nonemptiness when the head is not whitespace. -/
theorem pyStrip_cons_ne (c : Char) (r : Str) (hc : isSpace c = false) :
    pyStrip (c :: r) ≠ [] := by
  unfold pyStrip
  rw [List.dropWhile_cons, if_neg (by simp [hc])]
  intro h
  have h2 : (c :: r).reverse.dropWhile isSpace = [] := by
    simpa using congrArg List.reverse h
  rw [List.dropWhile_eq_nil_iff] at h2
  have h3 := h2 c (by simp)
  simp [hc] at h3

/-- Whitespace collapsing preserves a non-whitespace head. -/
theorem subWs_cons_not_space (c : Char) (r : Str) (hc : isSpace c = false) :
    ∃ w, subWs (c :: r) = c :: w := by
  cases r with
  | nil => exact ⟨[], by simp [subWs, hc]⟩
  | cons d t => exact ⟨subWs (d :: t), by simp [subWs, hc]⟩

/-- Normalization of a string with a non-whitespace head is nonempty. -/
theorem pyNormalize_cons_ne (c : Char) (r : Str) (hc : isSpace c = false) :
    pyNormalize (c :: r) ≠ [] := by
  unfold pyNormalize
  obtain ⟨w, hw⟩ := subWs_cons_not_space c r hc
  rw [hw]
  exact pyStrip_cons_ne c w hc

/-- A normalized string never starts with whitespace. -/
theorem pyNormalize_head_not_space (s : Str) (c : Char) (r : Str)
    (h : pyNormalize s = c :: r) : isSpace c = false :=
  pyStrip_head_not_space (subWs s) c r h

/-- `get_text` output never starts with whitespace (its first character
is the head of a stripped fragment). -/
theorem get_text_head_not_space (sep : Str) (n : HNode) (c : Char) (r : Str)
    (h : get_text sep n = c :: r) : isSpace c = false := by
  unfold get_text at h
  rcases hf : ((HNode.strings n).map pyStrip).filter (fun s => !s.isEmpty) with _ | ⟨f, fs⟩
  · rw [hf] at h
    simp [joinSep] at h
  · rw [hf] at h
    have hfmem : f ∈ ((HNode.strings n).map pyStrip).filter (fun s => !s.isEmpty) := by
      rw [hf]
      exact List.mem_cons_self f fs
    have hfne : f.isEmpty = false := by
      have h2 := (List.mem_filter.mp hfmem).2
      simpa using h2
    obtain ⟨x, _, hx⟩ := List.mem_map.mp (List.mem_filter.mp hfmem).1
    have hjoin : ∃ t, joinSep sep (f :: fs) = f ++ t := by
      cases fs with
      | nil => exact ⟨[], by simp [joinSep]⟩
      | cons g gs => exact ⟨sep ++ joinSep sep (g :: gs), by simp [joinSep]⟩
    obtain ⟨t, hjt⟩ := hjoin
    rw [hjt] at h
    rcases hfc : f with _ | ⟨a, f2⟩
    · rw [hfc] at hfne
      simp at hfne
    · rw [hfc, List.cons_append] at h
      injection h with h1 _
      subst h1
      refine pyStrip_head_not_space x a f2 ?_
      rw [hx, hfc]

/-- Normalizing nonempty extracted text yields a nonempty string. -/
theorem get_text_pyNormalize_ne (sep : Str) (n : HNode) (h : get_text sep n ≠ []) :
    pyNormalize (get_text sep n) ≠ [] := by
  rcases hc : get_text sep n with _ | ⟨c, r⟩
  · exact absurd hc h
  · exact pyNormalize_cons_ne c r (get_text_head_not_space sep n c r hc)

/-- C1: a malformed inline-encoded image source aborts the whole
document build instead of degrading to a placeholder — on a container
whose image has the comma-less source `data:image/png`, the unguarded
`decode_data_image` raises (modelled `Except.error`) out of
`fetch_image_bytes`, and the error propagates through `handle_img` and
the walk so `build_docx` produces no document. -/
theorem build_docx_malformed_data_image_aborts :
    build_docx trivEnv [] ("https://h/x".toList) c1Container = .error () ∧
    fetch_image_bytes trivEnv ("data:image/png".toList) ("https://h/x".toList) =
      .error () :=
  ⟨rfl, rfl⟩

/-- C3 counterexample: on the two-cell table
`<table><tr><td>a</td><td>b</td></tr></table>` the builder emits the
whitespace-normalized text `a b`, not the newline-joined `a\nb` that the
claim states. -/
theorem walk_table_c3_counterexample :
    walk trivEnv [] c3Table = .ok [Block.paragraph ['a', ' ', 'b']] ∧
    get_text ['\n'] c3Table = ['a', '\n', 'b'] ∧
    (['a', ' ', 'b'] : Str) ≠ ['a', '\n', 'b'] :=
  ⟨rfl, rfl, by decide⟩

/-- C3 (amended): a table with nonempty cell text and no images produces
exactly one text block, containing all cell text newline-joined and then
whitespace-normalized (the newlines between cells collapse to single
spaces), with no row/column structure preserved. -/
theorem walk_table_single_block (env : FetchEnv) (base : Str)
    (a : List (Str × Str)) (cs : HForest)
    (hni : findImgs (.elem ("table".toList) a cs) = [])
    (ht : get_text ['\n'] (.elem ("table".toList) a cs) ≠ []) :
    walk env base (.elem ("table".toList) a cs) =
      .ok [Block.paragraph (pyNormalize (get_text ['\n'] (.elem ("table".toList) a cs)))] := by
  have hred : walk env base (.elem ("table".toList) a cs) =
      exceptAppend
        (.ok (if (get_text ['\n'] (.elem ("table".toList) a cs)).isEmpty then []
              else add_text_paragraph (get_text ['\n'] (.elem ("table".toList) a cs))))
        (handleImgs env base (findImgs (.elem ("table".toList) a cs))) :=
    rfl
  have hne : (get_text ['\n'] (HNode.elem ("table".toList) a cs)).isEmpty = false := by
    rcases h2 : get_text ['\n'] (HNode.elem ("table".toList) a cs) with _ | ⟨c, r⟩
    · exact absurd h2 ht
    · rfl
  rw [hred, hni]
  have hpn : (pyNormalize (get_text ['\n'] (HNode.elem ("table".toList) a cs))).isEmpty
      = false := by
    rcases h2 : pyNormalize (get_text ['\n'] (HNode.elem ("table".toList) a cs)) with _ | ⟨c, r⟩
    · exact absurd h2 (get_text_pyNormalize_ne _ _ ht)
    · rfl
  simp only [handleImgs, exceptAppend, hne, Bool.false_eq_true, if_false,
    add_text_paragraph, hpn, List.append_nil]

/-- Witness for the amended C3 at the concrete two-cell table. -/
theorem walk_table_single_block_witness :
    walk trivEnv [] c3Table = .ok [Block.paragraph ['a', ' ', 'b']] := by
  have h := walk_table_single_block trivEnv [] []
    (HForest.ofList [.elem ("tr".toList) []
      (HForest.ofList [.elem ("td".toList) [] (HForest.ofList [.textNode "a".toList]),
                       .elem ("td".toList) [] (HForest.ofList [.textNode "b".toList])])])
    (by rfl) (by decide)
  exact h.trans (by rfl)

/-- Every block emitted by `add_text_paragraph` is well-formed. -/
theorem add_text_paragraph_ok (t : Str) : ∀ b ∈ add_text_paragraph t, BlockOk b := by
  unfold add_text_paragraph
  rcases h : pyNormalize t with _ | ⟨c, r⟩
  · simp
  · simp only [List.isEmpty_cons, Bool.false_eq_true, if_false, List.mem_singleton]
    rintro b rfl
    simp [BlockOk]

/-- Every block emitted by `add_heading` is well-formed. -/
theorem add_heading_ok (t : Str) (lvl : Nat) : ∀ b ∈ add_heading t lvl, BlockOk b := by
  unfold add_heading
  rcases h : pyNormalize t with _ | ⟨c, r⟩
  · simp
  · simp only [List.isEmpty_cons, Bool.false_eq_true, if_false, List.mem_singleton]
    rintro b rfl
    exact ⟨by simp, pyNormalize_cons_ne c r (pyNormalize_head_not_space t c r h)⟩

/-- Every block emitted by `add_list_item` is well-formed. -/
theorem add_list_item_ok (t : Str) (ordered : Bool) :
    ∀ b ∈ add_list_item t ordered, BlockOk b := by
  unfold add_list_item
  rcases h : pyNormalize t with _ | ⟨c, r⟩
  · simp
  · simp only [List.isEmpty_cons, Bool.false_eq_true, if_false, List.mem_singleton]
    rintro b rfl
    exact ⟨by simp, pyNormalize_cons_ne c r (pyNormalize_head_not_space t c r h)⟩

/-- The not-downloaded placeholder text is never empty. -/
theorem imgNotDownloaded_ne (alt : Str) : imgNotDownloaded alt ≠ [] := by
  have h : imgNotDownloaded alt =
      '[' :: ("Image not downloaded]".toList ++
        (if alt.isEmpty then [] else ": ".toList ++ alt)) := rfl
  rw [h]
  simp

/-- The unsupported-format placeholder text is never empty. -/
theorem imgUnsupported_ne (ext : Str) : imgUnsupported ext ≠ [] := by
  have h : imgUnsupported ext =
      '[' :: ("Image format not supported in Word: .".toList ++ ext ++ "]".toList) := rfl
  rw [h]
  simp

/-- Case analysis for the image handler's emitted blocks, abstracted
over the fetch result. -/
theorem handle_img_ok_aux (pok : List Nat → Str → Bool) (alt : Str)
    (res : Except Unit (Option (List Nat × Str))) (bs : List Block)
    (h : (match res with
          | .error e => .error e
          | .ok none => .ok [Block.paragraph (imgNotDownloaded alt)]
          | .ok (some (bts, ext)) =>
            if bts.isEmpty then .ok [Block.paragraph (imgNotDownloaded alt)]
            else .ok ((if alt.isEmpty then [] else [Block.paragraph alt]) ++
              (if pok bts ext then [Block.image bts ext]
               else [Block.paragraph (imgUnsupported ext)])) :
          Except Unit (List Block)) = .ok bs) :
    ∀ b ∈ bs, BlockOk b := by
  rcases res with e | o
  · exact absurd h (by simp)
  · rcases o with _ | ⟨bts, ext⟩
    · simp only [Except.ok.injEq] at h
      subst h
      intro b hb
      simp only [List.mem_singleton] at hb
      subst hb
      exact imgNotDownloaded_ne alt
    · by_cases hb0 : bts.isEmpty = true
      · simp only [hb0, if_true, Except.ok.injEq] at h
        subst h
        intro b hb
        simp only [List.mem_singleton] at hb
        subst hb
        exact imgNotDownloaded_ne alt
      · simp only [hb0, Bool.false_eq_true, if_false, Except.ok.injEq] at h
        subst h
        intro b hb
        rcases List.mem_append.mp hb with h1 | h1
        · rcases halt : alt.isEmpty with _ | _
          · rw [halt] at h1
            simp only [Bool.false_eq_true, if_false, List.mem_singleton] at h1
            subst h1
            simpa using halt
          · rw [halt] at h1
            simp at h1
        · by_cases hpk : pok bts ext = true
          · rw [if_pos hpk] at h1
            simp only [List.mem_singleton] at h1
            subst h1
            trivial
          · rw [if_neg hpk] at h1
            simp only [List.mem_singleton] at h1
            subst h1
            exact imgUnsupported_ne ext

/-- Every block emitted for a single image is well-formed. -/
theorem handle_img_ok (env : FetchEnv) (base : Str) (img : HNode) (bs : List Block)
    (h : handle_img env base img = .ok bs) : ∀ b ∈ bs, BlockOk b := by
  unfold handle_img at h
  exact handle_img_ok_aux env.picture_ok _ _ bs h

/-- `exceptAppend` preserves block well-formedness. -/
theorem exceptAppend_ok (r1 r2 : Except Unit (List Block)) (bs : List Block)
    (h1 : ∀ ib, r1 = .ok ib → ∀ b ∈ ib, BlockOk b)
    (h2 : ∀ ib, r2 = .ok ib → ∀ b ∈ ib, BlockOk b)
    (h : exceptAppend r1 r2 = .ok bs) : ∀ b ∈ bs, BlockOk b := by
  unfold exceptAppend at h
  rcases r1 with e | bs1
  · exact absurd h (by simp)
  · rcases r2 with e | bs2
    · exact absurd h (by simp)
    · simp only [Except.ok.injEq] at h
      subst h
      intro b hb
      rcases List.mem_append.mp hb with hm | hm
      · exact h1 bs1 rfl b hm
      · exact h2 bs2 rfl b hm

/-- Lift well-formedness of a fixed block list to its `Except.ok`
wrapping. -/
theorem ok_blocks_ok (first : List Block) (hf : ∀ b ∈ first, BlockOk b) :
    ∀ ib, (Except.ok first : Except Unit (List Block)) = .ok ib → ∀ b ∈ ib, BlockOk b := by
  intro ib hib
  simp only [Except.ok.injEq] at hib
  subst hib
  exact hf

/-- The guarded text paragraph of the `p` and `table` branches is
well-formed. -/
theorem if_add_text_paragraph_ok (cond : Bool) (t : Str) :
    ∀ b ∈ (if cond = true then [] else add_text_paragraph t), BlockOk b := by
  cases cond
  · simp only [Bool.false_eq_true, if_false]
    exact add_text_paragraph_ok t
  · simp

/-- Every block emitted for a list of images is well-formed. -/
theorem handleImgs_ok (env : FetchEnv) (base : Str) :
    ∀ (l : List HNode) (bs : List Block), handleImgs env base l = .ok bs →
      ∀ b ∈ bs, BlockOk b := by
  intro l
  induction l with
  | nil =>
    intro bs h
    simp only [handleImgs, Except.ok.injEq] at h
    subst h
    simp
  | cons i r ih =>
    intro bs h
    rw [handleImgs] at h
    exact exceptAppend_ok _ _ bs (fun ib hib => handle_img_ok env base i ib hib)
      (fun ib hib => ih ib hib) h

/-- Every block emitted for a run of list items is well-formed. -/
theorem walkLis_ok (env : FetchEnv) (base : Str) (ordered : Bool) :
    ∀ (l : List HNode) (bs : List Block), walkLis env base ordered l = .ok bs →
      ∀ b ∈ bs, BlockOk b := by
  intro l
  induction l with
  | nil =>
    intro bs h
    simp only [walkLis, Except.ok.injEq] at h
    subst h
    simp
  | cons li r ih =>
    intro bs h
    rw [walkLis] at h
    exact exceptAppend_ok _ _ bs (ok_blocks_ok _ (add_list_item_ok _ _))
      (fun ib hib => exceptAppend_ok _ _ ib
        (fun jb hjb => handleImgs_ok env base _ jb hjb)
        (fun jb hjb => ih jb hjb) hib) h

/-- Every block the walk emits is well-formed, proved by mutual
structural induction over nodes and forests. -/
theorem walk_blocks_ok (env : FetchEnv) (base : Str) :
    ∀ n : HNode, ∀ bs, walk env base n = .ok bs → ∀ b ∈ bs, BlockOk b := by
  refine @HNode.rec
    (fun n => ∀ bs, walk env base n = .ok bs → ∀ b ∈ bs, BlockOk b)
    (fun f => ∀ bs, walkForest env base f = .ok bs → ∀ b ∈ bs, BlockOk b)
    ?_ ?_ ?_ ?_
  · intro s bs h
    simp only [walk, Except.ok.injEq] at h
    subst h
    simp
  · intro t a cs ihf bs h
    rw [walk] at h
    split at h
    · simp only [Except.ok.injEq] at h
      subst h
      simp
    · split at h
      · simp only [Except.ok.injEq] at h
        subst h
        exact add_heading_ok _ _
      · split at h
        · exact exceptAppend_ok _ _ bs (ok_blocks_ok _ (if_add_text_paragraph_ok _ _))
            (fun ib hib => handleImgs_ok env base _ ib hib) h
        · split at h
          · exact walkLis_ok env base _ _ _ h
          · split at h
            · exact handle_img_ok env base _ _ h
            · split at h
              · exact exceptAppend_ok _ _ bs (ok_blocks_ok _ (if_add_text_paragraph_ok _ _))
                  (fun ib hib => handleImgs_ok env base _ ib hib) h
              · exact ihf bs h
  · intro bs h
    simp only [walkForest, Except.ok.injEq] at h
    subst h
    simp
  · intro n f ihn ihf bs h
    rw [walkForest] at h
    exact exceptAppend_ok _ _ bs (fun ib hib => ihn ib hib)
      (fun ib hib => ihf ib hib) h

/-- C10 counterexample: an image that resolves successfully but has a
whitespace-only `alt` makes the builder emit a caption paragraph whose
text collapses to the empty string under whitespace normalization. -/
theorem walk_whitespace_caption_counterexample :
    walk trivEnv [] c10Img =
      .ok [Block.paragraph [' ', ' '], Block.image [0] ("png".toList)] ∧
    pyNormalize [' ', ' '] = [] :=
  ⟨rfl, by decide⟩

/-- C10 (amended): the builder's text-extraction paths never emit an
empty block — every heading and list-item block carries nonempty text
that stays nonempty under whitespace normalization, and every paragraph
block is a nonempty string; however a paragraph emitted as an image
caption copies the `alt` text verbatim and may be whitespace-only
(normalizing to empty). -/
theorem walk_no_empty_text_blocks (env : FetchEnv) (base : Str) (n : HNode)
    (bs : List Block) (h : walk env base n = .ok bs) : ∀ b ∈ bs, BlockOk b :=
  walk_blocks_ok env base n bs h

/-- Witness for the amended C10: the paragraph emitted for `<p>hi</p>`
is well-formed. -/
theorem walk_no_empty_text_blocks_witness :
    BlockOk (Block.paragraph ("hi".toList)) :=
  walk_no_empty_text_blocks trivEnv []
    (.elem ("p".toList) [] (HForest.ofList [.textNode "hi".toList]))
    [Block.paragraph ("hi".toList)] rfl (Block.paragraph ("hi".toList)) (by simp)

end KbDocx
